import Mathlib

/-!
Verification development for the skydex firehose-ingestion pipeline.

Each component of the TypeScript source is shallowly embedded as Lean
definitions: strings are lists of Unicode code points where character-level
behaviour matters, stateful code is explicit state passing, fallible code
returns sum types, and external collaborators (the rate limiter's scheduler,
the database, the outbound API) are oracles passed in as parameters.
-/

namespace Skydex

/-! ## util.ts — normalize

The source defines

  const prohibitedCharacters = /[\u{202A}-\u{202E}|\u{2066}-\u{2069}]/gu;
  export const normalize = (str) => str.replace(prohibitedCharacters, "");

Inside a regex character class the `|` is a literal, so the class matches
U+202A..U+202E, U+2066..U+2069 and also U+007C (the pipe).  Strings are
modelled as lists of code points. -/

/-- Character-class membership of the source regex, read off literally:
the two ranges and the literal pipe standing between them. -/
def prohibitedCharacters (c : Nat) : Bool :=
  (0x202A ≤ c && c ≤ 0x202E) || c == 0x7C || (0x2066 ≤ c && c ≤ 0x2069)

/-- Embedding of the source normalize: remove every code point matched by
the prohibited-characters class. -/
def normalize (s : List Nat) : List Nat :=
  s.filter (fun c => !prohibitedCharacters c)

/-- Membership in the two bidirectional-override ranges that the spec says
are the only code points removed (spec-side definition, for comparison with
the code-side prohibitedCharacters). -/
def inBidiRanges (c : Nat) : Bool :=
  (0x202A ≤ c && c ≤ 0x202E) || (0x2066 ≤ c && c ≤ 0x2069)

/-! ## Association lists

The JavaScript Map objects of the source (backoffs, unresolvedPromises,
promises) are modelled as association lists with overwrite-on-set, matching
Map.set / Map.get / Map.delete. -/

/-- Map.get: first value stored under the key, if any. -/
def alGet {α : Type} : List (String × α) → String → Option α
  | [], _ => none
  | (k, v) :: rest, key => if k = key then some v else alGet rest key

/-- Map.set: overwrite the value under the key, or append a new entry. -/
def alSet {α : Type} : List (String × α) → String → α → List (String × α)
  | [], key, v => [(key, v)]
  | (k, w) :: rest, key, v =>
      if k = key then (key, v) :: rest else (k, w) :: alSet rest key v

/-- Map.delete: drop every entry stored under the key. -/
def alDel {α : Type} (l : List (String × α)) (key : String) : List (String × α) :=
  l.filter (fun p => !(p.1 = key : Bool))

/-! ## api.ts — rate-limiter failure handler

Embedding of the Bottleneck failure callback (api.ts lines 22-60).  HTTP
errors are modelled by their status code and the two rate-limit headers; a
present header is a `some` (a `some` on rlReset stands for a present, truthy
ratelimit-reset header whose parseInt value is the carried real).  Delays are
exact reals; the JS float exponent `** 1.5` is the real power 1.5. -/

/-- Fields of the error object the handler reads. -/
structure JobError where
  statusCode : Option Nat
  rlRemaining : Option String
  rlReset : Option ℝ

/-- Fields of the Bottleneck jobInfo the handler reads. -/
structure JobInfo where
  id : String
  retryCount : Nat

/-- The JS expression n ** 1.5 on a natural n, as a real power. -/
noncomputable def pow15 (n : Nat) : ℝ := (n : ℝ) ^ (1.5 : ℝ)

/-- The per-id backoff map (const backoffs = new Map). -/
abbrev Backoffs := List (String × ℝ)

/-- The ratelimit-reset early return: when both headers are present and
truthy and remaining is the string "0", the returned wait is
reset seconds times 1000 minus now. -/
noncomputable def resetWait (err : JobError) (now : ℝ) : Option ℝ :=
  match err.rlRemaining, err.rlReset with
  | some remaining, some reset =>
      if remaining = "0" then some (reset * 1000 - now) else none
  | _, _ => none

/-- Embedding of rateLimiter.on failure callback: seed the per-id backoff at
250 ms when absent (the comma-operator side effect on line 33), honour the
ratelimit-reset headers on 429, otherwise escalate the backoff while
retryCount is below 5, and past that clear the id's state and return null.
Non-429 failures return null immediately.  Returns the delay (none = drop)
and the updated backoff map. -/
noncomputable def onFailed (backoffs : Backoffs) (err : JobError) (job : JobInfo) (now : ℝ) :
    Option ℝ × Backoffs :=
  let seeded :=
    match alGet backoffs job.id with
    | some b => (b, backoffs)
    | none => ((250 : ℝ), alSet backoffs job.id 250)
  match seeded with
  | (backoff, bs) =>
    if err.statusCode = some 429 then
      match resetWait err now with
      | some wait => (some wait, alSet bs job.id wait)
      | none =>
          if job.retryCount < 5 then
            let next := backoff * pow15 (job.retryCount + 1)
            (some next, alSet bs job.id next)
          else (none, alDel bs job.id)
    else (none, bs)

/-- The backoff currently stored for an id, defaulting to the 250 ms seed. -/
noncomputable def currentBackoff (bs : Backoffs) (id : String) : ℝ :=
  (alGet bs id).getD 250

/-- The backoff map after the line-33 seeding side effect. -/
noncomputable def seededBackoffs (bs : Backoffs) (id : String) : Backoffs :=
  match alGet bs id with
  | some _ => bs
  | none => alSet bs id 250

/-- A plain 429 failure without rate-limit headers, for tracing the backoff
sequence of a single job id. -/
def err429 : JobError := ⟨some 429, none, none⟩

/-- The backoff map after k successive plain-429 failures of job "a"
(retryCount counting up from 0). -/
noncomputable def backoffChain : Nat → Backoffs
  | 0 => []
  | k + 1 => (onFailed (backoffChain k) err429 ⟨"a", k⟩ 0).2

/-- The delay returned on the failure with retryCount k in that chain. -/
noncomputable def delayAt (k : Nat) : Option ℝ :=
  (onFailed (backoffChain k) err429 ⟨"a", k⟩ 0).1

/-! ## api.ts — request coalescer

The unresolvedPromises map and the limit function (api.ts lines 66-78).
Promises are identified by tokens drawn from a fresh-token counter; the
tokens handed to rateLimiter.schedule are logged so that "schedules fn
again" is observable. -/

/-- State of the coalescer: the in-flight map, the fresh-token supply, and
the log of jobs actually handed to the rate limiter. -/
structure LimitState where
  unresolved : List (String × Nat)
  nextToken : Nat
  scheduled : List Nat
deriving DecidableEq

/-- Embedding of limit(options, fn): return the stored in-flight future for
the id when one exists; otherwise schedule a fresh job, store its future
under the id, and return it. -/
def limit (s : LimitState) (id : String) : Nat × LimitState :=
  match alGet s.unresolved id with
  | some tok => (tok, s)
  | none =>
      let tok := s.nextToken
      (tok,
        { unresolved := alSet s.unresolved id tok
          nextToken := tok + 1
          scheduled := s.scheduled ++ [tok] })

/-- Settlement of the scheduled promise for an id.  The source chains
.then(res => \x7b unresolvedPromises.delete(id); return res \x7d) with no
rejection handler, so the map entry is removed only when the promise
fulfils; on rejection the entry stays. -/
def settle (s : LimitState) (id : String) (fulfilled : Bool) : LimitState :=
  if fulfilled then { s with unresolved := alDel s.unresolved id } else s

/-! ## handleRepoOperation.ts — resolver

Embedding of insertPostRecord and resolvePost.  Handler results follow the
source's Result pairs: ok carries the resolved value, miss is the
null-null soft miss, err carries an error (abstracted to a code).  The
database, the outbound API and the recursive resolver calls are oracles;
the uris passed to resolvePost and to the outbound API are logged so that
call counts and ordering are observable. -/

/-- A Result of string: the resolved value, a null-null soft miss, or an
error. -/
inductive RRes where
  | ok (v : String)
  | miss
  | err (e : Nat)
deriving DecidableEq

/-- The error component of an optional Result (undefined destructures to no
error). -/
def errOfOpt : Option RRes → Option Nat
  | some (.err e) => some e
  | _ => none

/-- The value component of an optional Result. -/
def valOfOpt : Option RRes → Option String
  | some (.ok v) => some v
  | _ => none

/-- A reply reference of a feed post record: parent and root uris. -/
structure Reply where
  parent : String
  root : String
deriving DecidableEq

/-- The embed union of a feed post record, by variant tag.  Only the data
reference resolution reads is carried (image alts, external fields, quoted
record uri). -/
inductive Embed where
  | images (alts : List String)
  | external (title description uri : String)
  | record (uri : String)
  | recordWithMedia (uri : String)
deriving DecidableEq

/-- The fields of a feed post record that insertPostRecord's reference
resolution and text normalization read; the remaining payload fields
(createdAt, langs, tags, labels) are threaded to the insert unchanged and
are omitted. -/
structure PostRecord where
  text : List Nat
  reply : Option Reply
  embed : Option Embed
deriving DecidableEq

/-- The quoted-post uri extracted from the embed union: the record and
record-with-media variants carry one, images and external do not. -/
def quotedUriOf : Option Embed → Option String
  | some (.record u) => some u
  | some (.recordWithMedia u) => some u
  | _ => none

/-- The arguments of the Post insert that the claims observe: the uri, the
normalized text, and the three optional post references. -/
structure InsertArgs where
  uri : String
  text : List Nat
  parent : Option String
  root : Option String
  quoted : Option String
deriving DecidableEq

/-- Outcome of the e.insert(e.Post, ...).run call. -/
inductive DbOut where
  | okRow
  | gone
  | edbError (e : Nat)
deriving DecidableEq

/-- Keyv set of a boolean presence entry. -/
def cacheAdd (cache : List String) (uri : String) : List String :=
  if uri ∈ cache then cache else cache ++ [uri]

/-- The Result of insertPostRecord, with the error shapes distinguished:
success, the null-null soft miss, author-resolution failure, composite
reference-resolution failure (keeping the three optional causes, as the
source's error message does), and database failure. -/
inductive IResult where
  | ok
  | soft
  | authorErr (e : Nat)
  | refsErr (pe re qe : Option Nat)
  | dbErr (e : Nat)
deriving DecidableEq

/-- Result of insertPostRecord with its observable effects: the Result
value, the post presence cache afterwards, the resolvePost calls made for
references (in order), and the insert operation performed, if any. -/
structure IPROut where
  result : IResult
  postCache : List String
  postCalls : List String
  inserted : Option InsertArgs
deriving DecidableEq

/-- The parent reference's resolution: resolvePost on the reply's parent
uri when a reply is present. -/
def parentResOf (resolvePostO : String → RRes) (record : PostRecord) : Option RRes :=
  (record.reply.map Reply.parent).map resolvePostO

/-- The root reference's resolution: reuse the parent's result when the
root uri equals the parent uri, otherwise resolvePost on the root uri. -/
def rootResOf (resolvePostO : String → RRes) (record : PostRecord) : Option RRes :=
  match record.reply.map Reply.root with
  | some r =>
      if record.reply.map Reply.root = record.reply.map Reply.parent then
        parentResOf resolvePostO record
      else some (resolvePostO r)
  | none => none

/-- The quoted reference's resolution. -/
def quotedResOf (resolvePostO : String → RRes) (record : PostRecord) : Option RRes :=
  (quotedUriOf record.embed).map resolvePostO

/-- The resolvePost invocations reference resolution performs, in source
order: parent first, then root unless it reuses the parent's result, then
quoted. -/
def refCallsOf (record : PostRecord) : List String :=
  (record.reply.map Reply.parent).toList
    ++ (match record.reply.map Reply.root with
        | some r =>
            if record.reply.map Reply.root = record.reply.map Reply.parent then []
            else [r]
        | none => [])
    ++ (quotedUriOf record.embed).toList

/-- The continuation of insertPostRecord after the author resolved: resolve
the three references, bail out with a composite error if any errored,
otherwise insert with soft-missed references unset and cache the uri on
success. -/
def insertPostRecordCore (resolvePostO : String → RRes) (dbOut : DbOut)
    (cache : List String) (record : PostRecord) (uri : String) : IPROut :=
  let pe := errOfOpt (parentResOf resolvePostO record)
  let re := errOfOpt (rootResOf resolvePostO record)
  let qe := errOfOpt (quotedResOf resolvePostO record)
  let calls := refCallsOf record
  if pe ≠ none ∨ re ≠ none ∨ qe ≠ none then
    ⟨.refsErr pe re qe, cache, calls, none⟩
  else
    let args : InsertArgs :=
      ⟨uri, normalize record.text,
        valOfOpt (parentResOf resolvePostO record),
        valOfOpt (rootResOf resolvePostO record),
        valOfOpt (quotedResOf resolvePostO record)⟩
    match dbOut with
    | .edbError e => ⟨.dbErr e, cache, calls, some args⟩
    | .gone => ⟨.soft, cache, calls, some args⟩
    | .okRow => ⟨.ok, cacheAdd cache uri, calls, some args⟩

/-- Embedding of insertPostRecord: resolve the author (bubbling failure,
returning the null insertion on a soft miss), then run the reference
resolution and insert. -/
def insertPostRecord (resolveUser resolvePostO : String → RRes) (dbOut : DbOut)
    (cache : List String) (record : PostRecord) (repo uri : String) : IPROut :=
  match resolveUser repo with
  | .err e => ⟨.authorErr e, cache, [], none⟩
  | .miss => ⟨.soft, cache, [], none⟩
  | .ok _ => insertPostRecordCore resolvePostO dbOut cache record uri

/-- How the awaited inner insertPostRecord call inside resolvePost settles:
fulfilled with its Result pair, rejected with an Error, or rejected with a
non-Error value. -/
inductive InnerInsert where
  | returned
  | threwError (e : Nat)
  | threwOther
deriving DecidableEq

/-- Outcome of apiGetPost: a PostView (whose record may fail feed-post
validation and whose author did may be absent), a missing post, or an API
error. -/
inductive ApiOut where
  | view (record : Option PostRecord) (authorDid : Option String)
  | missing
  | apiErr (e : Nat)

/-- Result of resolvePost with its observable effects: the Result value,
the post presence cache afterwards, and the outbound API calls made. -/
structure RPOut where
  result : RRes
  postCache : List String
  apiCalls : List String
deriving DecidableEq

/-- Error code standing for the Invalid PostView error. -/
def invalidViewErr : Nat := 9001

/-- Error code standing for the Failed to insert post record error. -/
def failedInsertErr : Nat := 9002

/-- Embedding of resolvePost: return on a cache hit, then on a database
hit (caching it), otherwise call the outbound API, validate the view, run
the inner insertPostRecord, and cache the uri unless that call rejected. -/
def resolvePost (dbHit : String → Bool) (api : String → ApiOut)
    (insertO : String → InnerInsert) (cache : List String) (uri : String) : RPOut :=
  if uri ∈ cache then ⟨.ok uri, cache, []⟩
  else if dbHit uri then ⟨.ok uri, cacheAdd cache uri, []⟩
  else
    match api uri with
    | .apiErr e => ⟨.err e, cache, [uri]⟩
    | .missing => ⟨.miss, cache, [uri]⟩
    | .view rec authorDid =>
        match rec, authorDid with
        | some _, some _ =>
            match insertO uri with
            | .returned => ⟨.ok uri, cacheAdd cache uri, [uri]⟩
            | .threwError e => ⟨.err e, cache, [uri]⟩
            | .threwOther => ⟨.err failedInsertErr, cache, [uri]⟩
        | _, _ => ⟨.err invalidViewErr, cache, [uri]⟩

/-! ## util/batch.ts — Batcher

Embedding of the Batcher class.  The pending Set is an insertion-ordered
duplicate-free list, the promises Map an association list from key to the
token of the future registered for it, the timer a pending flag, and the
user-supplied process function either returns a keyed map (Record values
looked up as Option, undefined = none) or throws an error code.  Settling a
future is recorded as an event naming its token.  The await inside flush is
modelled atomically. -/

namespace Batcher

/-- A settled future: its token, and either the resolved value (undefined
permitted) or the rejection error. -/
inductive Event (V : Type) where
  | resolved (tok : Nat) (v : Option V)
  | rejected (tok : Nat) (e : Nat)
deriving DecidableEq

/-- The token a settlement event names. -/
def eventTok {V : Type} : Event V → Nat
  | .resolved tok _ => tok
  | .rejected tok _ => tok

/-- Batcher instance state: pending key set, timer flag, callback map
(key to future token), and a fresh-token supply for created futures. -/
structure State where
  queue : List String
  timer : Bool
  promises : List (String × Nat)
  nextTok : Nat
deriving DecidableEq

/-- A freshly constructed Batcher. -/
def init : State := ⟨[], false, [], 0⟩

/-- How one key's future is settled by a flush outcome: resolved with the
processed map's value for the key on success, rejected with the thrown
error on failure. -/
def mkEvent {V : Type} (outcome : Except Nat (String → Option V)) (tok : Nat)
    (id : String) : Event V :=
  match outcome with
  | .ok m => .resolved tok (m id)
  | .error e => .rejected tok e

/-- The settlement loop of flush: for each snapshotted key, settle the
registered future (skipping keys with no entry, the optional-chaining call)
and delete the key's map entry. -/
def settleAll {V : Type} (outcome : Except Nat (String → Option V)) :
    List String → List (String × Nat) → List (String × Nat) × List (Event V)
  | [], ps => (ps, [])
  | id :: rest, ps =>
      let evs : List (Event V) :=
        match alGet ps id with
        | some tok => [mkEvent outcome tok id]
        | none => []
      let next := settleAll outcome rest (alDel ps id)
      (next.1, evs ++ next.2)

/-- Embedding of flush: cancel the timer, snapshot and clear the pending
set, invoke process on the snapshot, and settle every snapshotted key's
future with the outcome. -/
def flush {V : Type} (process : List String → Except Nat (String → Option V))
    (s : State) : State × List (Event V) :=
  let snapshot := s.queue
  let settled := settleAll (process snapshot) snapshot s.promises
  ({ queue := [], timer := false, promises := settled.1, nextTok := s.nextTok }, settled.2)

/-- Embedding of scheduleFlush: start the maxTime timer unless one is
already pending. -/
def scheduleFlush (s : State) : State :=
  if s.timer then s else { s with timer := true }

/-- The synchronous body of add before the size check: insert the key into
the pending set, register a fresh future for it (overwriting any earlier
registration for the same key), and return that future's token. -/
def addPending (s : State) (id : String) : Nat × State :=
  (s.nextTok,
    { queue := if id ∈ s.queue then s.queue else s.queue ++ [id]
      timer := s.timer
      promises := alSet s.promises id s.nextTok
      nextTok := s.nextTok + 1 })

/-- Embedding of add: register the key, then flush immediately when the
pending set has reached maxSize and otherwise schedule a flush. -/
def add {V : Type} (maxSize : Nat) (process : List String → Except Nat (String → Option V))
    (s : State) (id : String) : Nat × State × List (Event V) :=
  let p := addPending s id
  if maxSize ≤ p.2.queue.length then
    let f := flush process p.2
    (p.1, f.1, f.2)
  else (p.1, scheduleFlush p.2, [])

/-- One observable step of a Batcher: an add call, or the scheduled timer
firing a flush. -/
inductive Step (maxSize : Nat) {V : Type}
    (process : List String → Except Nat (String → Option V)) :
    State → List (Event V) → State → Prop
  | add (s : State) (id : String) :
      Step maxSize process s (add maxSize process s id).2.2 (add maxSize process s id).2.1
  | timerFire (s : State) :
      Step maxSize process s (flush process s).2 (flush process s).1

/-- Finitely many steps, accumulating the settlement events. -/
inductive Reach (maxSize : Nat) {V : Type}
    (process : List String → Except Nat (String → Option V)) :
    State → List (Event V) → State → Prop
  | refl (s : State) : Reach maxSize process s [] s
  | tail {s1 s2 s3 : State} {evs1 evs2 : List (Event V)} :
      Reach maxSize process s1 evs1 s2 → Step maxSize process s2 evs2 s3 →
      Reach maxSize process s1 (evs1 ++ evs2) s3

/-- A token neither registered in the callback map nor still issuable from
the fresh supply; such a token can never be settled again. -/
def tokenFree (s : State) (tok : Nat) : Prop :=
  (∀ p ∈ s.promises, p.2 ≠ tok) ∧ tok < s.nextTok

end Batcher

/-! ## indexFirehose.ts — firehose driver

Embedding of handleFirehoseMessage, the startup replay of the
failed-message queue, and the adaptive-throttling statistics.  Handler
bodies are an oracle from message to an optional thrown error code; the
failed-message Keyv store is an association list. -/

/-- The lexicon-validated firehose message variants the driver dispatches
on, reduced to the fields the driver itself reads.  A commit keeps whether
its blocks byte string is empty; its ops are handled inside the handler
oracle. -/
inductive Message where
  | handle (did handle : String) (seq : Nat)
  | tombstone (did : String) (seq : Nat)
  | identity (did : String) (seq : Nat)
  | info
  | commit (repo rev : String) (seq : Nat) (blocksEmpty : Bool)
deriving DecidableEq

/-- A value stored in the failed-message store: the commit path stores the
wrapped record with a retry counter, the non-commit paths store the bare
message. -/
inductive StoredValue where
  | wrapped (msg : Message) (retries : Nat)
  | bare (msg : Message)
deriving DecidableEq

/-- Driver state: the in-memory cursor and the failed-message store. -/
structure FirehoseState where
  cursor : Option Nat
  failed : List (String × StoredValue)
deriving DecidableEq

/-- Embedding of handleFirehoseMessage: dispatch on the message variant,
catch a handler error, capture the message in the failed store (bare under
did::kind for non-commit messages, wrapped with retry counter 0 under
repo::rev for commits), rethrow the error, and set the cursor to
message.seq only when the handler returned cleanly.  An info message and an
empty-blocks commit do nothing. -/
def handleFirehoseMessage (outcome : Message → Option Nat) (s : FirehoseState)
    (m : Message) : FirehoseState × Option Nat :=
  match m with
  | .handle did _ seq =>
      match outcome m with
      | some e => ({ s with failed := alSet s.failed (did ++ "::handle") (.bare m) }, some e)
      | none => ({ s with cursor := some seq }, none)
  | .tombstone did seq =>
      match outcome m with
      | some e =>
          ({ s with failed := alSet s.failed (did ++ "::tombstone") (.bare m) }, some e)
      | none => ({ s with cursor := some seq }, none)
  | .identity did seq =>
      match outcome m with
      | some e =>
          ({ s with failed := alSet s.failed (did ++ "::identity") (.bare m) }, some e)
      | none => ({ s with cursor := some seq }, none)
  | .info => (s, none)
  | .commit repo rev seq blocksEmpty =>
      if blocksEmpty then (s, none)
      else
        match outcome m with
        | some e =>
            ({ s with failed := alSet s.failed (repo ++ "::" ++ rev) (.wrapped m 0) },
             some e)
        | none => ({ s with cursor := some seq }, none)

/-- The destructuring of message and retries from a stored entry at the top
of the replay loop: a wrapped entry yields its message and counter; a bare
firehose message object has no message property, so message destructures to
undefined. -/
def messageField : StoredValue → Option (Message × Nat)
  | .wrapped msg r => some (msg, r)
  | .bare _ => none

/-- One iteration of the startup replay loop over a stored key: skip when
the destructured message is undefined, otherwise re-run the handler,
deleting the entry on success, giving it up once the retry counter has
reached 3, and reinserting it with the counter incremented otherwise.  The
boolean reports whether the handler was actually invoked for the entry. -/
def replayStep (outcome : Message → Option Nat) (s : FirehoseState) (key : String) :
    FirehoseState × Bool :=
  match alGet s.failed key with
  | none => (s, false)
  | some v =>
      match messageField v with
      | none => (s, false)
      | some (msg, r) =>
          let res := handleFirehoseMessage outcome s msg
          match res.2 with
          | none => ({ res.1 with failed := alDel res.1.failed key }, true)
          | some _ =>
              if 3 ≤ r then
                ({ res.1 with failed := alDel res.1.failed key }, true)
              else
                ({ res.1 with failed := alSet res.1.failed key (.wrapped msg (r + 1)) },
                 true)

/-- The Bottleneck constructor options the driver tunes. -/
structure BottleneckOptions where
  minTime : Nat
  reservoir : Nat
  reservoirRefreshAmount : Nat
  reservoirRefreshInterval : Nat
deriving DecidableEq

/-- The baseline limiter settings of api.ts. -/
def BOTTLENECK_OPTIONS : BottleneckOptions :=
  ⟨110, 2900, 2900, 5 * 60 * 1000⟩

/-- The settings the 15-second interval applies, as a function of the
eventsPerSecond variable it reads. -/
def throttleTick (eps : Nat) : BottleneckOptions :=
  if 350 ≤ eps then { BOTTLENECK_OPTIONS with minTime := 750 }
  else if 280 ≤ eps then { BOTTLENECK_OPTIONS with minTime := 300 }
  else BOTTLENECK_OPTIONS

/-- The event-rate statistics the interval reads. -/
structure StatsState where
  eventCounter : Nat
  eventsPerSecond : Nat
  lastSecond : Nat
deriving DecidableEq

/-- The statistics update in the socket message listener, at the message's
arrival time in milliseconds: the entire block — including the event
counting and the eventsPerSecond rollover — is guarded by the verbose
CLI flag. -/
def onMessageStats (verbose : Bool) (now : Nat) (s : StatsState) : StatsState :=
  if verbose then
    let s1 := { s with eventCounter := s.eventCounter + 1 }
    if 1000 ≤ now - s1.lastSecond then
      { eventCounter := 0, eventsPerSecond := s1.eventCounter, lastSecond := now }
    else s1
  else s

/-! ## Association-list lemmas -/

/-- A successful lookup exhibits an entry of the list. -/
theorem alGet_mem {α : Type} {l : List (String × α)} {k : String} {v : α}
    (h : alGet l k = some v) : (k, v) ∈ l := by
  induction l with
  | nil => simp [alGet] at h
  | cons p rest ih =>
      obtain ⟨a, b⟩ := p
      by_cases hk : a = k
      · subst hk
        simp [alGet] at h
        simp [h]
      · simp [alGet, hk] at h
        simp [ih h]

/-- Overwriting a key twice is the same as writing it once. -/
theorem alSet_alSet {α : Type} (l : List (String × α)) (k : String) (v w : α) :
    alSet (alSet l k v) k w = alSet l k w := by
  induction l with
  | nil => simp [alSet]
  | cons p rest ih =>
      obtain ⟨a, b⟩ := p
      by_cases hk : a = k
      · simp [alSet, hk]
      · simp [alSet, hk, ih]

/-- Looking up the key just written returns the written value. -/
theorem alGet_alSet_self {α : Type} (l : List (String × α)) (k : String) (v : α) :
    alGet (alSet l k v) k = some v := by
  induction l with
  | nil => simp [alGet, alSet]
  | cons p rest ih =>
      obtain ⟨a, b⟩ := p
      by_cases hk : a = k
      · simp [alGet, alSet, hk]
      · simp [alGet, alSet, hk, ih]

/-- Every entry after a write is either the written pair or an old entry. -/
theorem alSet_mem {α : Type} {l : List (String × α)} {k : String} {v : α} :
    ∀ p ∈ alSet l k v, p = (k, v) ∨ p ∈ l := by
  induction l with
  | nil => simp [alSet]
  | cons q rest ih =>
      obtain ⟨a, b⟩ := q
      by_cases hk : a = k
      · intro p hp
        simp [alSet, hk] at hp
        rcases hp with hp | hp
        · exact Or.inl (by simp [hp])
        · exact Or.inr (by simp [hp])
      · intro p hp
        simp [alSet, hk] at hp
        rcases hp with hp | hp
        · exact Or.inr (by simp [hp])
        · rcases ih p hp with h | h
          · exact Or.inl h
          · exact Or.inr (by simp [h])

/-- Deleting one key leaves lookups of other keys unchanged. -/
theorem alGet_alDel_ne {α : Type} (l : List (String × α)) {k q : String} (h : q ≠ k) :
    alGet (alDel l k) q = alGet l q := by
  induction l with
  | nil => rfl
  | cons p rest ih =>
      obtain ⟨a, b⟩ := p
      simp only [alDel, List.filter_cons] at ih ⊢
      by_cases hk : a = k
      · subst hk
        have haq : ¬a = q := fun hq => h hq.symm
        simp [alGet, haq, ih]
      · by_cases hq : a = q
        · simp [alGet, hk, hq, h]
        · simp [alGet, hk, hq, h, ih]

/-- Entries surviving a delete were entries before it. -/
theorem alDel_sub {α : Type} {l : List (String × α)} {k : String} :
    ∀ p ∈ alDel l k, p ∈ l := by
  intro p hp
  exact List.mem_of_mem_filter hp

/-! ## Batcher lemmas -/

/-- The event built for a token names that token. -/
theorem Batcher.eventTok_mkEvent {V : Type} (o : Except Nat (String → Option V))
    (tok : Nat) (id : String) : Batcher.eventTok (Batcher.mkEvent o tok id) = tok := by
  cases o <;> rfl

/-- Settling a duplicate-free snapshot whose keys are all registered emits
one settlement per key, in snapshot order, each settling the token
registered for its key. -/
theorem Batcher.settleAll_events {V : Type} (o : Except Nat (String → Option V)) :
    ∀ (snap : List String) (ps : List (String × Nat)), snap.Nodup →
      (∀ q ∈ snap, (alGet ps q).isSome = true) →
      (Batcher.settleAll o snap ps).2
        = snap.map (fun q => Batcher.mkEvent o ((alGet ps q).getD 0) q)
  | [], ps, _, _ => rfl
  | id :: rest, ps, hnd, hall => by
      obtain ⟨tok, htok⟩ : ∃ t, alGet ps id = some t := by
        have h := hall id (by simp)
        cases hg : alGet ps id with
        | none => rw [hg] at h; simp at h
        | some t => exact ⟨t, rfl⟩
      have hid : id ∉ rest := (List.nodup_cons.mp hnd).1
      have hndr : rest.Nodup := (List.nodup_cons.mp hnd).2
      have hall2 : ∀ q ∈ rest, (alGet (alDel ps id) q).isSome = true := by
        intro q hq
        have hqid : q ≠ id := fun he => hid (he ▸ hq)
        rw [alGet_alDel_ne ps hqid]
        exact hall q (by simp [hq])
      have ih := Batcher.settleAll_events o rest (alDel ps id) hndr hall2
      have hmaps : rest.map (fun q => Batcher.mkEvent o ((alGet (alDel ps id) q).getD 0) q)
          = rest.map (fun q => Batcher.mkEvent o ((alGet ps q).getD 0) q) := by
        refine List.map_congr_left ?_
        intro q hq
        have hqid : q ≠ id := fun he => hid (he ▸ hq)
        rw [alGet_alDel_ne ps hqid]
      show (match alGet ps id with
            | some tok => [Batcher.mkEvent o tok id]
            | none => []) ++ (Batcher.settleAll o rest (alDel ps id)).2
          = _
      rw [htok, ih, hmaps]
      simp [htok]

/-- The callback map after settling holds only entries it held before. -/
theorem Batcher.settleAll_sub {V : Type} (o : Except Nat (String → Option V)) :
    ∀ (snap : List String) (ps : List (String × Nat)),
      ∀ p ∈ (Batcher.settleAll o snap ps).1, p ∈ ps
  | [], _, _, hp => hp
  | id :: rest, ps, p, hp =>
      alDel_sub p (Batcher.settleAll_sub o rest (alDel ps id) p hp)

/-- Every settlement event names a token registered in the map being
settled. -/
theorem Batcher.settleAll_toks {V : Type} (o : Except Nat (String → Option V)) :
    ∀ (snap : List String) (ps : List (String × Nat)),
      ∀ ev ∈ (Batcher.settleAll o snap ps).2, ∃ p ∈ ps, Batcher.eventTok ev = p.2 := by
  intro snap
  induction snap with
  | nil => intro ps ev hev; simp [Batcher.settleAll] at hev
  | cons id rest ih =>
      intro ps ev hev
      have hev2 : ev ∈ (match alGet ps id with
          | some tok => [Batcher.mkEvent o tok id]
          | none => ([] : List (Batcher.Event V)))
          ++ (Batcher.settleAll o rest (alDel ps id)).2 := hev
      rcases List.mem_append.mp hev2 with h | h
      · cases hg : alGet ps id with
        | none => rw [hg] at h; simp at h
        | some tok =>
            rw [hg] at h
            simp at h
            subst h
            exact ⟨(id, tok), alGet_mem hg, Batcher.eventTok_mkEvent o tok id⟩
      · obtain ⟨p, hp, he⟩ := ih (alDel ps id) ev h
        exact ⟨p, alDel_sub p hp, he⟩

/-- Flushing preserves freeness of a token: the settled map is a subset and
the fresh supply is untouched. -/
theorem Batcher.tokenFree_flush {V : Type}
    (process : List String → Except Nat (String → Option V)) (s : Batcher.State)
    {tok : Nat} (h : Batcher.tokenFree s tok) :
    Batcher.tokenFree (Batcher.flush process s).1 tok :=
  ⟨fun p hp => h.1 p (Batcher.settleAll_sub _ _ _ p hp), h.2⟩

/-- No flush from a state where a token is free settles that token. -/
theorem Batcher.flush_events_tok {V : Type}
    (process : List String → Except Nat (String → Option V)) (s : Batcher.State)
    {tok : Nat} (h : Batcher.tokenFree s tok) :
    ∀ ev ∈ (Batcher.flush process s).2, Batcher.eventTok ev ≠ tok := by
  intro ev hev
  obtain ⟨p, hp, he⟩ := Batcher.settleAll_toks _ _ _ ev hev
  rw [he]
  exact h.1 p hp

/-- Registering a new key preserves freeness of an older token: the new
entry carries a strictly fresher token. -/
theorem Batcher.tokenFree_addPending (s : Batcher.State) (id : String) {tok : Nat}
    (h : Batcher.tokenFree s tok) :
    Batcher.tokenFree (Batcher.addPending s id).2 tok := by
  refine ⟨?_, Nat.lt_succ_of_lt h.2⟩
  intro p hp
  rcases alSet_mem p hp with he | he
  · subst he
    exact Nat.ne_of_gt h.2
  · exact h.1 p he

/-- Arming the timer does not touch the callback map or the supply. -/
theorem Batcher.tokenFree_scheduleFlush (s : Batcher.State) {tok : Nat}
    (h : Batcher.tokenFree s tok) :
    Batcher.tokenFree (Batcher.scheduleFlush s) tok := by
  unfold Batcher.scheduleFlush
  split
  · exact h
  · exact h

/-- One step from a state where a token is free keeps it free and settles
only other tokens. -/
theorem Batcher.step_tokenFree {V : Type} {maxSize : Nat}
    {process : List String → Except Nat (String → Option V)}
    {s1 s2 : Batcher.State} {evs : List (Batcher.Event V)} {tok : Nat}
    (h : Batcher.tokenFree s1 tok) (hs : Batcher.Step maxSize process s1 evs s2) :
    Batcher.tokenFree s2 tok ∧ ∀ ev ∈ evs, Batcher.eventTok ev ≠ tok := by
  cases hs with
  | add id =>
      have hp := Batcher.tokenFree_addPending s1 id h
      by_cases hc : maxSize ≤ (Batcher.addPending s1 id).2.queue.length
      · constructor
        · simpa [Batcher.add, hc] using Batcher.tokenFree_flush process _ hp
        · simpa [Batcher.add, hc] using Batcher.flush_events_tok process _ hp
      · constructor
        · simpa [Batcher.add, hc] using Batcher.tokenFree_scheduleFlush _ hp
        · simp [Batcher.add, hc]
  | timerFire =>
      exact ⟨Batcher.tokenFree_flush process s1 h, Batcher.flush_events_tok process s1 h⟩

/-- Along any run from a state where a token is free, it stays free and no
settlement ever names it. -/
theorem Batcher.reach_tokenFree {V : Type} {maxSize : Nat}
    {process : List String → Except Nat (String → Option V)}
    {s1 s2 : Batcher.State} {evs : List (Batcher.Event V)} {tok : Nat}
    (h : Batcher.tokenFree s1 tok) (hr : Batcher.Reach maxSize process s1 evs s2) :
    Batcher.tokenFree s2 tok ∧ ∀ ev ∈ evs, Batcher.eventTok ev ≠ tok := by
  induction hr with
  | refl => exact ⟨h, by simp⟩
  | tail hr hs ih =>
      obtain ⟨h2, he1⟩ := ih
      obtain ⟨h3, he2⟩ := Batcher.step_tokenFree h2 hs
      refine ⟨h3, ?_⟩
      intro ev hev
      rcases List.mem_append.mp hev with hm | hm
      · exact he1 ev hm
      · exact he2 ev hm

/-- C2: the claim says normalize removes exactly the code points of
U+202A–U+202E and U+2066–U+2069.  The code's character class also contains a
literal pipe, so normalize removes U+007C (= 124) as well: on the one-character
string "|", which lies in neither range, normalize returns the empty string
instead of preserving it. -/
theorem normalize_strips_pipe_outside_bidi_ranges :
    normalize [0x7C] = [] ∧ inBidiRanges 0x7C = false := by
  decide

/-- One to the power 1.5 is one, so the first escalation leaves the 250 ms
seed unchanged. -/
theorem pow15_one : pow15 1 = 1 := by
  simp [pow15]

/-- The backoff map after the first plain-429 failure of job "a". -/
theorem backoffChain_one : backoffChain 1 = [("a", 250)] := by
  simp [backoffChain, onFailed, err429, resetWait, alGet, alSet, pow15_one]

/-- The backoff map after the second plain-429 failure of job "a". -/
theorem backoffChain_two : backoffChain 2 = [("a", 250 * pow15 2)] := by
  rw [backoffChain, backoffChain_one]
  simp [onFailed, err429, resetWait, alGet, alSet]

/-- The backoff map after the third plain-429 failure of job "a". -/
theorem backoffChain_three : backoffChain 3 = [("a", 250 * pow15 2 * pow15 3)] := by
  rw [backoffChain, backoffChain_two]
  simp [onFailed, err429, resetWait, alGet, alSet]

/-- The backoff map after the fourth plain-429 failure of job "a". -/
theorem backoffChain_four :
    backoffChain 4 = [("a", 250 * pow15 2 * pow15 3 * pow15 4)] := by
  rw [backoffChain, backoffChain_three]
  simp [onFailed, err429, resetWait, alGet, alSet]

/-- The backoff map after the fifth plain-429 failure of job "a". -/
theorem backoffChain_five :
    backoffChain 5 = [("a", 250 * pow15 2 * pow15 3 * pow15 4 * pow15 5)] := by
  rw [backoffChain, backoffChain_four]
  simp [onFailed, err429, resetWait, alGet, alSet]

/-- C4: on a 429 failure that does not take the ratelimit-reset path, a job
with retryCount below 5 gets the delay current times (retryCount+1)^1.5
(seeded at 250 ms) stored back under its id; once retryCount reaches 5 the
handler deletes the id's backoff state and returns null; a non-429 failure
returns null immediately.  The chained delays for retryCounts 0..4 of a
single job are 250, 250·2^1.5, and then each previous times
(retryCount+1)^1.5, and the sixth failure clears the state. -/
theorem rate_limiter_backoff_policy (bs : Backoffs) (err : JobError) (job : JobInfo) (now : ℝ) :
    (err.statusCode = some 429 → resetWait err now = none → job.retryCount < 5 →
      onFailed bs err job now =
        (some (currentBackoff bs job.id * pow15 (job.retryCount + 1)),
         alSet (seededBackoffs bs job.id) job.id
           (currentBackoff bs job.id * pow15 (job.retryCount + 1))))
  ∧ (err.statusCode = some 429 → resetWait err now = none → 5 ≤ job.retryCount →
      onFailed bs err job now = (none, alDel (seededBackoffs bs job.id) job.id))
  ∧ (err.statusCode ≠ some 429 → onFailed bs err job now = (none, seededBackoffs bs job.id))
  ∧ delayAt 0 = some 250
  ∧ delayAt 1 = some (250 * pow15 2)
  ∧ delayAt 2 = some (250 * pow15 2 * pow15 3)
  ∧ delayAt 3 = some (250 * pow15 2 * pow15 3 * pow15 4)
  ∧ delayAt 4 = some (250 * pow15 2 * pow15 3 * pow15 4 * pow15 5)
  ∧ onFailed (backoffChain 5) err429 ⟨"a", 5⟩ 0 = (none, []) := by
  refine ⟨?_, ?_, ?_, ?_, ?_, ?_, ?_, ?_, ?_⟩
  · intro h429 hreset hlt
    cases h : alGet bs job.id with
    | none => simp [onFailed, currentBackoff, seededBackoffs, h, h429, hreset, hlt]
    | some b => simp [onFailed, currentBackoff, seededBackoffs, h, h429, hreset, hlt]
  · intro h429 hreset hge
    cases h : alGet bs job.id with
    | none => simp [onFailed, seededBackoffs, h, h429, hreset, Nat.not_lt.mpr hge]
    | some b => simp [onFailed, seededBackoffs, h, h429, hreset, Nat.not_lt.mpr hge]
  · intro hne
    cases h : alGet bs job.id with
    | none => simp [onFailed, seededBackoffs, h, hne]
    | some b => simp [onFailed, seededBackoffs, h, hne]
  · simp [delayAt, backoffChain, onFailed, err429, resetWait, alGet, pow15_one]
  · rw [delayAt, backoffChain_one]
    simp [onFailed, err429, resetWait, alGet]
  · rw [delayAt, backoffChain_two]
    simp [onFailed, err429, resetWait, alGet]
  · rw [delayAt, backoffChain_three]
    simp [onFailed, err429, resetWait, alGet]
  · rw [delayAt, backoffChain_four]
    simp [onFailed, err429, resetWait, alGet]
  · rw [backoffChain_five]
    simp [onFailed, err429, resetWait, alGet, alDel]

/-- C4 witness: a concrete non-429 failure is dropped with no retry. -/
theorem rate_limiter_backoff_policy_witness :
    onFailed [] ⟨some 500, none, none⟩ ⟨"b", 0⟩ 0 = (none, seededBackoffs [] "b") :=
  (rate_limiter_backoff_policy [] ⟨some 500, none, none⟩ ⟨"b", 0⟩ 0).2.2.1 (by decide)

/-- Deleting a key removes every binding for it. -/
theorem alGet_alDel {α : Type} (l : List (String × α)) (k : String) :
    alGet (alDel l k) k = none := by
  induction l with
  | nil => rfl
  | cons p rest ih =>
      by_cases h : p.1 = k
      · simpa [alDel, List.filter_cons, h] using ih
      · simpa [alDel, List.filter_cons, h, alGet] using ih

/-- C5 counterexample: the claim says that when a call completes its entry is
removed from the in-flight map so that a later call with the same id
schedules a fresh request.  The source removes the entry in a
fulfilment-only then-handler, so after a call completes by rejection the
entry is still present and a later call with the same id returns the old
(rejected) future without scheduling anything. -/
theorem limit_entry_survives_rejection :
    alGet (settle (limit ⟨[], 0, []⟩ "a").2 "a" false).unresolved "a" = some 0
  ∧ limit (settle (limit ⟨[], 0, []⟩ "a").2 "a" false) "a"
      = (0, settle (limit ⟨[], 0, []⟩ "a").2 "a" false) := by
  decide

/-- C5 amended: while a call for an id is in flight, a second call returns
the stored future and does not schedule anything; a fresh call stores its
future and appends exactly one job to the schedule log; fulfilment of the
underlying promise removes the entry (so a later call schedules afresh), but
rejection leaves the state unchanged, so later calls keep returning the
rejected future. -/
theorem limit_coalescing (s : LimitState) (id : String) (tok : Nat) :
    (alGet s.unresolved id = some tok → limit s id = (tok, s))
  ∧ (alGet s.unresolved id = none →
      limit s id =
        (s.nextToken,
         ⟨alSet s.unresolved id s.nextToken, s.nextToken + 1, s.scheduled ++ [s.nextToken]⟩))
  ∧ alGet (settle s id true).unresolved id = none
  ∧ settle s id false = s := by
  refine ⟨?_, ?_, ?_, ?_⟩
  · intro h; simp [limit, h]
  · intro h; simp [limit, h]
  · simp [settle, alGet_alDel]
  · simp [settle]

/-- C5 witness: a second call for an in-flight id returns the stored future
and leaves the state untouched. -/
theorem limit_coalescing_witness :
    limit ⟨[("a", 5)], 6, [5]⟩ "a" = (5, ⟨[("a", 5)], 6, [5]⟩) :=
  (limit_coalescing ⟨[("a", 5)], 6, [5]⟩ "a" 5).1 (by decide)

/-- Whenever the post-insert continuation performs an insert, its arguments
are the uri, the normalized text, and the three reference values. -/
theorem insertPostRecordCore_inserted (resolvePostO : String → RRes) (dbOut : DbOut)
    (cache : List String) (record : PostRecord) (uri : String) :
    ∀ args, (insertPostRecordCore resolvePostO dbOut cache record uri).inserted = some args →
      args = ⟨uri, normalize record.text,
        valOfOpt (parentResOf resolvePostO record),
        valOfOpt (rootResOf resolvePostO record),
        valOfOpt (quotedResOf resolvePostO record)⟩ := by
  intro args h
  unfold insertPostRecordCore at h
  by_cases hc : errOfOpt (parentResOf resolvePostO record) ≠ none
      ∨ errOfOpt (rootResOf resolvePostO record) ≠ none
      ∨ errOfOpt (quotedResOf resolvePostO record) ≠ none
  · simp [hc] at h
  · simp only [hc, if_false] at h
    cases dbOut <;> simp at h <;> exact h.symm

/-- The post-insert continuation caches the uri exactly when it returns
success, in which case the cache is the old one with the uri added. -/
theorem insertPostRecordCore_ok_cache (resolvePostO : String → RRes) (dbOut : DbOut)
    (cache : List String) (record : PostRecord) (uri : String)
    (h : (insertPostRecordCore resolvePostO dbOut cache record uri).result = .ok) :
    (insertPostRecordCore resolvePostO dbOut cache record uri).postCache
      = cacheAdd cache uri := by
  unfold insertPostRecordCore at h ⊢
  by_cases hc : errOfOpt (parentResOf resolvePostO record) ≠ none
      ∨ errOfOpt (rootResOf resolvePostO record) ≠ none
      ∨ errOfOpt (quotedResOf resolvePostO record) ≠ none
  · simp [hc] at h
  · simp only [hc, if_false] at h ⊢
    cases dbOut <;> simp_all

/-- The post-insert continuation always performs exactly the reference
resolution calls, whatever the outcome. -/
theorem insertPostRecordCore_calls (resolvePostO : String → RRes) (dbOut : DbOut)
    (cache : List String) (record : PostRecord) (uri : String) :
    (insertPostRecordCore resolvePostO dbOut cache record uri).postCalls
      = refCallsOf record := by
  unfold insertPostRecordCore
  by_cases hc : errOfOpt (parentResOf resolvePostO record) ≠ none
      ∨ errOfOpt (rootResOf resolvePostO record) ≠ none
      ∨ errOfOpt (quotedResOf resolvePostO record) ≠ none
  · simp [hc]
  · simp only [hc, if_false]
    cases dbOut <;> rfl

/-- C7: with the author resolved and a reply present, reference resolution
calls resolvePost on the parent uri first, then on the root uri unless the
root uri equals the parent uri — in which case the parent's result is
reused and resolvePost is not called a second time — then on the quoted
uri, if any; if any of parent, root or quoted resolution errors, the
function returns the composite error carrying those causes and performs no
insert; and when none errors the insert proceeds with every soft-missed
reference left unset. -/
theorem insert_post_record_reference_resolution
    (resolveUser resolvePostO : String → RRes) (dbOut : DbOut) (cache : List String)
    (record : PostRecord) (repo uri v : String) (rep : Reply)
    (hauthor : resolveUser repo = .ok v)
    (hreply : record.reply = some rep) :
    (insertPostRecord resolveUser resolvePostO dbOut cache record repo uri).postCalls
      = [rep.parent] ++ (if rep.root = rep.parent then [] else [rep.root])
        ++ (quotedUriOf record.embed).toList
  ∧ (rep.root = rep.parent →
      rootResOf resolvePostO record = parentResOf resolvePostO record)
  ∧ (∀ args, (insertPostRecord resolveUser resolvePostO dbOut cache record repo uri).inserted
        = some args → rep.root = rep.parent → args.root = args.parent)
  ∧ ((errOfOpt (parentResOf resolvePostO record) ≠ none
      ∨ errOfOpt (rootResOf resolvePostO record) ≠ none
      ∨ errOfOpt (quotedResOf resolvePostO record) ≠ none) →
      (insertPostRecord resolveUser resolvePostO dbOut cache record repo uri).result
        = .refsErr (errOfOpt (parentResOf resolvePostO record))
            (errOfOpt (rootResOf resolvePostO record))
            (errOfOpt (quotedResOf resolvePostO record))
      ∧ (insertPostRecord resolveUser resolvePostO dbOut cache record repo uri).inserted
          = none)
  ∧ (errOfOpt (parentResOf resolvePostO record) = none →
      errOfOpt (rootResOf resolvePostO record) = none →
      errOfOpt (quotedResOf resolvePostO record) = none →
      (insertPostRecord resolveUser resolvePostO dbOut cache record repo uri).inserted
        = some ⟨uri, normalize record.text,
            valOfOpt (parentResOf resolvePostO record),
            valOfOpt (rootResOf resolvePostO record),
            valOfOpt (quotedResOf resolvePostO record)⟩)
  ∧ (resolvePostO rep.parent = .miss → valOfOpt (parentResOf resolvePostO record) = none)
  ∧ (rep.root ≠ rep.parent → resolvePostO rep.root = .miss →
      valOfOpt (rootResOf resolvePostO record) = none)
  ∧ (∀ q, quotedUriOf record.embed = some q → resolvePostO q = .miss →
      valOfOpt (quotedResOf resolvePostO record) = none) := by
  refine ⟨?_, ?_, ?_, ?_, ?_, ?_, ?_, ?_⟩
  · rw [show (insertPostRecord resolveUser resolvePostO dbOut cache record repo uri)
        = insertPostRecordCore resolvePostO dbOut cache record uri by
          simp [insertPostRecord, hauthor]]
    rw [insertPostRecordCore_calls]
    by_cases hrp : rep.root = rep.parent <;> simp [refCallsOf, hreply, hrp]
  · intro h
    simp [rootResOf, hreply, h]
  · intro args hins h
    rw [show (insertPostRecord resolveUser resolvePostO dbOut cache record repo uri)
        = insertPostRecordCore resolvePostO dbOut cache record uri by
          simp [insertPostRecord, hauthor]] at hins
    rw [insertPostRecordCore_inserted resolvePostO dbOut cache record uri args hins]
    show valOfOpt (rootResOf resolvePostO record) = valOfOpt (parentResOf resolvePostO record)
    rw [show rootResOf resolvePostO record = parentResOf resolvePostO record by
      simp [rootResOf, hreply, h]]
  · intro hc
    simp [insertPostRecord, hauthor, insertPostRecordCore, hc]
  · intro h1 h2 h3
    simp [insertPostRecord, hauthor, insertPostRecordCore, h1, h2, h3]
    cases dbOut <;> simp
  · intro h
    simp [valOfOpt, parentResOf, hreply, h]
  · intro hne h
    simp [valOfOpt, rootResOf, hreply, hne, h]
  · intro q hq h
    simp [valOfOpt, quotedResOf, hq, h]

/-- C7 witness: a reply whose root equals its parent resolves the shared
uri exactly once. -/
theorem insert_post_record_reference_resolution_witness :
    (insertPostRecord (fun d => RRes.ok d)
        (fun u => if u = "at://p" then RRes.ok u else RRes.miss)
        DbOut.okRow [] ⟨[], some ⟨"at://p", "at://p"⟩, none⟩ "did:a" "at://new").postCalls
      = ["at://p"] := by
  simpa using (insert_post_record_reference_resolution
    (fun d => RRes.ok d) (fun u => if u = "at://p" then RRes.ok u else RRes.miss)
    DbOut.okRow [] ⟨[], some ⟨"at://p", "at://p"⟩, none⟩ "did:a" "at://new" "did:a"
    ⟨"at://p", "at://p"⟩ rfl rfl).1

/-- C8: a successful insertPostRecord records the uri in the post presence
cache, and resolvePost on any cache containing the uri answers from the
cache-hit early return — the same Result a clean insert produced — making
no outbound API call. -/
theorem insert_then_resolve_without_api
    (resolveUser resolvePostO : String → RRes) (dbOut : DbOut) (cache : List String)
    (record : PostRecord) (repo uri : String)
    (dbHit : String → Bool) (api : String → ApiOut) (insertO : String → InnerInsert)
    (hok : (insertPostRecord resolveUser resolvePostO dbOut cache record repo uri).result
        = .ok) :
    uri ∈ (insertPostRecord resolveUser resolvePostO dbOut cache record repo uri).postCache
  ∧ resolvePost dbHit api insertO
      (insertPostRecord resolveUser resolvePostO dbOut cache record repo uri).postCache uri
    = ⟨.ok uri,
       (insertPostRecord resolveUser resolvePostO dbOut cache record repo uri).postCache,
       []⟩ := by
  have hcache : (insertPostRecord resolveUser resolvePostO dbOut cache record repo uri).postCache
      = cacheAdd cache uri := by
    revert hok
    unfold insertPostRecord
    cases hu : resolveUser repo with
    | ok v =>
        intro hok
        exact insertPostRecordCore_ok_cache resolvePostO dbOut cache record uri hok
    | miss => intro hok; simp at hok
    | err e => intro hok; simp at hok
  have hmem : uri ∈ (insertPostRecord resolveUser resolvePostO dbOut
      cache record repo uri).postCache := by
    rw [hcache]
    by_cases hin : uri ∈ cache <;> simp [cacheAdd, hin]
  exact ⟨hmem, by simp [resolvePost, hmem]⟩

/-- C8 witness: a concrete clean insert followed by a resolve of the same
uri that hits the cache and performs no API call. -/
theorem insert_then_resolve_without_api_witness :
    "u" ∈ (insertPostRecord (fun d => RRes.ok d) (fun _ => RRes.miss) DbOut.okRow []
        ⟨[], none, none⟩ "d" "u").postCache
  ∧ resolvePost (fun _ => false) (fun _ => ApiOut.missing) (fun _ => InnerInsert.returned)
      (insertPostRecord (fun d => RRes.ok d) (fun _ => RRes.miss) DbOut.okRow []
        ⟨[], none, none⟩ "d" "u").postCache "u"
    = ⟨.ok "u",
       (insertPostRecord (fun d => RRes.ok d) (fun _ => RRes.miss) DbOut.okRow []
         ⟨[], none, none⟩ "d" "u").postCache,
       []⟩ :=
  insert_then_resolve_without_api (fun d => RRes.ok d) (fun _ => RRes.miss) DbOut.okRow []
    ⟨[], none, none⟩ "d" "u" (fun _ => false) (fun _ => ApiOut.missing)
    (fun _ => InnerInsert.returned) (by decide)

/-- The timer is always pending right after scheduleFlush. -/
theorem Batcher.scheduleFlush_timer (s : Batcher.State) :
    (Batcher.scheduleFlush s).timer = true := by
  by_cases h : s.timer <;> simp [Batcher.scheduleFlush, h]

/-- Arming the timer does not touch the fresh-token supply. -/
theorem Batcher.scheduleFlush_nextTok (s : Batcher.State) :
    (Batcher.scheduleFlush s).nextTok = s.nextTok := by
  by_cases h : s.timer <;> simp [Batcher.scheduleFlush, h]

/-- Arming the timer does not touch the callback map. -/
theorem Batcher.scheduleFlush_promises (s : Batcher.State) :
    (Batcher.scheduleFlush s).promises = s.promises := by
  by_cases h : s.timer <;> simp [Batcher.scheduleFlush, h]

/-- An add call returns the pre-add fresh token, whichever branch it
takes. -/
theorem Batcher.add_fst {V : Type} (maxSize : Nat)
    (process : List String → Except Nat (String → Option V))
    (s : Batcher.State) (id : String) :
    (Batcher.add maxSize process s id).1 = s.nextTok := by
  simp only [Batcher.add]
  split <;> rfl

/-- C6: add inserts the key into the pending set and registers a fresh
future for it; when the set is still below maxSize it arms the flush timer
and settles nothing, and once it has reached maxSize it flushes immediately.
A flush cancels the timer, clears the set, and — over a duplicate-free
pending set whose keys are all registered — settles exactly the snapshotted
keys' futures: each resolved with the processed map's value for its key
(undefined permitted) when process succeeds, and each rejected with the
thrown error when process throws. -/
theorem batcher_add_flush_behaviour {V : Type} (maxSize : Nat)
    (process : List String → Except Nat (String → Option V))
    (s : Batcher.State) (id : String) (m : String → Option V) (e : Nat) :
    (id ∈ (Batcher.addPending s id).2.queue
      ∧ alGet (Batcher.addPending s id).2.promises id = some (Batcher.addPending s id).1)
  ∧ ((Batcher.addPending s id).2.queue.length < maxSize →
      Batcher.add maxSize process s id
        = ((Batcher.addPending s id).1, Batcher.scheduleFlush (Batcher.addPending s id).2, [])
      ∧ (Batcher.scheduleFlush (Batcher.addPending s id).2).timer = true)
  ∧ (maxSize ≤ (Batcher.addPending s id).2.queue.length →
      Batcher.add maxSize process s id
        = ((Batcher.addPending s id).1,
           (Batcher.flush process (Batcher.addPending s id).2).1,
           (Batcher.flush process (Batcher.addPending s id).2).2))
  ∧ (Batcher.flush process s).1.timer = false
  ∧ (Batcher.flush process s).1.queue = []
  ∧ (s.queue.Nodup → (∀ q ∈ s.queue, (alGet s.promises q).isSome = true) →
      process s.queue = Except.ok m →
      (Batcher.flush process s).2
        = s.queue.map (fun q => Batcher.Event.resolved ((alGet s.promises q).getD 0) (m q)))
  ∧ (s.queue.Nodup → (∀ q ∈ s.queue, (alGet s.promises q).isSome = true) →
      process s.queue = Except.error e →
      (Batcher.flush process s).2
        = s.queue.map (fun q => Batcher.Event.rejected ((alGet s.promises q).getD 0) e)) := by
  refine ⟨⟨?_, ?_⟩, ?_, ?_, ?_, ?_, ?_, ?_⟩
  · by_cases h : id ∈ s.queue <;> simp [Batcher.addPending, h]
  · exact alGet_alSet_self s.promises id s.nextTok
  · intro hlt
    exact ⟨by simp [Batcher.add, Nat.not_le.mpr hlt], Batcher.scheduleFlush_timer _⟩
  · intro hge
    simp [Batcher.add, hge]
  · rfl
  · rfl
  · intro hnd hall hok
    calc (Batcher.flush process s).2
        = (Batcher.settleAll (process s.queue) s.queue s.promises).2 := rfl
      _ = (Batcher.settleAll (Except.ok m) s.queue s.promises).2 := by rw [hok]
      _ = _ := by
            rw [Batcher.settleAll_events (Except.ok m) s.queue s.promises hnd hall]
            simp [Batcher.mkEvent]
  · intro hnd hall herr
    calc (Batcher.flush process s).2
        = (Batcher.settleAll (process s.queue) s.queue s.promises).2 := rfl
      _ = (Batcher.settleAll (Except.error e) s.queue s.promises).2 := by rw [herr]
      _ = _ := by
            rw [Batcher.settleAll_events (Except.error e) s.queue s.promises hnd hall]
            simp [Batcher.mkEvent]

/-- C6 witness: flushing a two-key batch resolves both futures with the
processed map's values, the second being undefined. -/
theorem batcher_add_flush_behaviour_witness :
    (Batcher.flush (fun _ => Except.ok (fun q => if q = "x" then some 3 else (none : Option Nat)))
        ⟨["x", "y"], true, [("x", 0), ("y", 1)], 2⟩).2
      = ["x", "y"].map (fun q =>
          Batcher.Event.resolved
            ((alGet ([("x", 0), ("y", 1)] : List (String × Nat)) q).getD 0)
            (if q = "x" then some 3 else none)) :=
  (batcher_add_flush_behaviour 25
    (fun _ => Except.ok (fun q => if q = "x" then some 3 else (none : Option Nat)))
    ⟨["x", "y"], true, [("x", 0), ("y", 1)], 2⟩ "x"
    (fun q => if q = "x" then some 3 else none) 0).2.2.2.2.2.1
    (by decide) (by decide) rfl

/-- C10: a second add for the same key before the pending set is flushed
hands out a distinct fresh future and overwrites the first registration, so
the callback map holds only the most recent future for the key; from that
point on, no flush along any run ever resolves or rejects the first
caller's future. -/
theorem batcher_second_add_orphans_first_future {V : Type} (maxSize : Nat)
    (process : List String → Except Nat (String → Option V))
    (s : Batcher.State) (k : String)
    (hwf : ∀ p ∈ s.promises, p.2 < s.nextTok)
    (hlt : (Batcher.addPending s k).2.queue.length < maxSize) :
    Batcher.add maxSize process s k
      = (s.nextTok, Batcher.scheduleFlush (Batcher.addPending s k).2, [])
  ∧ (Batcher.add maxSize process (Batcher.scheduleFlush (Batcher.addPending s k).2) k).1
      = s.nextTok + 1
  ∧ s.nextTok + 1 ≠ s.nextTok
  ∧ alGet (Batcher.addPending
        (Batcher.scheduleFlush (Batcher.addPending s k).2) k).2.promises k
      = some (s.nextTok + 1)
  ∧ ∀ (s3 : Batcher.State) (evs : List (Batcher.Event V)),
      Batcher.Reach maxSize process
        (Batcher.addPending (Batcher.scheduleFlush (Batcher.addPending s k).2) k).2 evs s3 →
      ∀ ev ∈ evs, Batcher.eventTok ev ≠ s.nextTok := by
  have hsn : (Batcher.scheduleFlush (Batcher.addPending s k).2).nextTok = s.nextTok + 1 :=
    Batcher.scheduleFlush_nextTok _
  have hsp : (Batcher.scheduleFlush (Batcher.addPending s k).2).promises
      = alSet s.promises k s.nextTok :=
    Batcher.scheduleFlush_promises _
  refine ⟨?_, ?_, by omega, ?_, ?_⟩
  · simp only [Batcher.add]
    rw [if_neg (Nat.not_le.mpr hlt)]
    rfl
  · rw [Batcher.add_fst, hsn]
  · show alGet (alSet (Batcher.scheduleFlush (Batcher.addPending s k).2).promises k
        (Batcher.scheduleFlush (Batcher.addPending s k).2).nextTok) k = _
    rw [alGet_alSet_self, hsn]
  · intro s3 evs hr
    have hfree : Batcher.tokenFree
        (Batcher.addPending (Batcher.scheduleFlush (Batcher.addPending s k).2) k).2
        s.nextTok := by
      constructor
      · intro p hp
        have hp2 : p ∈ alSet s.promises k (s.nextTok + 1) := by
          have : (Batcher.addPending
                (Batcher.scheduleFlush (Batcher.addPending s k).2) k).2.promises
              = alSet (alSet s.promises k s.nextTok) k (s.nextTok + 1) := by
            show alSet (Batcher.scheduleFlush (Batcher.addPending s k).2).promises k
                (Batcher.scheduleFlush (Batcher.addPending s k).2).nextTok = _
            rw [hsp, hsn]
          rw [this, alSet_alSet] at hp
          exact hp
        rcases alSet_mem p hp2 with he | he
        · subst he
          omega
        · exact Nat.ne_of_lt (hwf p he)
      · show s.nextTok
            < (Batcher.scheduleFlush (Batcher.addPending s k).2).nextTok + 1
        omega
    exact (Batcher.reach_tokenFree hfree hr).2

/-- C10 witness: from an empty Batcher, two adds of the same key before any
flush, then one timer flush; the theorem's conclusion holds at these
concrete inputs. -/
theorem batcher_second_add_orphans_first_future_witness :
    (∀ p ∈ Batcher.init.promises, p.2 < Batcher.init.nextTok)
  ∧ ∀ (s3 : Batcher.State) (evs : List (Batcher.Event Nat)),
      Batcher.Reach 25 (fun _ => Except.ok (fun _ => (none : Option Nat)))
        (Batcher.addPending
          (Batcher.scheduleFlush (Batcher.addPending Batcher.init "a").2) "a").2 evs s3 →
      ∀ ev ∈ evs, Batcher.eventTok ev ≠ Batcher.init.nextTok :=
  ⟨by simp [Batcher.init],
    (batcher_second_add_orphans_first_future 25
      (fun _ => Except.ok (fun _ => (none : Option Nat))) Batcher.init "a"
      (by simp [Batcher.init]) (by decide)).2.2.2.2⟩

/-- C1 counterexample: the claim says that after a caught per-op error the
driver still sets the cursor to message.seq exactly as for a clean commit.
On a concrete commit whose handler throws, the message is captured under
repo::rev and the error rethrown, and the cursor stays at its old value
instead of becoming message.seq (= 5). -/
theorem commit_error_does_not_advance_cursor :
    handleFirehoseMessage (fun _ => some 7) ⟨none, []⟩ (Message.commit "r" "v" 5 false)
      = (⟨none, [("r::v", StoredValue.wrapped (Message.commit "r" "v" 5 false) 0)]⟩, some 7)
  ∧ (handleFirehoseMessage (fun _ => some 7) ⟨none, []⟩
      (Message.commit "r" "v" 5 false)).1.cursor ≠ some 5 := by
  decide

/-- C1 amended: for a non-empty commit whose per-op processing throws, the
error is caught, the message is captured wrapped with a zero retry counter
under repo::rev, and the error is rethrown, leaving the cursor unchanged;
the cursor is set to message.seq exactly when the commit processes
cleanly. -/
theorem commit_error_capture_and_cursor (outcome : Message → Option Nat)
    (s : FirehoseState) (repo rev : String) (seq : Nat) :
    (∀ e, outcome (.commit repo rev seq false) = some e →
      (handleFirehoseMessage outcome s (.commit repo rev seq false)).1.failed
          = alSet s.failed (repo ++ "::" ++ rev)
              (StoredValue.wrapped (Message.commit repo rev seq false) 0)
        ∧ (handleFirehoseMessage outcome s (.commit repo rev seq false)).1.cursor = s.cursor
        ∧ (handleFirehoseMessage outcome s (.commit repo rev seq false)).2 = some e)
  ∧ (outcome (.commit repo rev seq false) = none →
      (handleFirehoseMessage outcome s (.commit repo rev seq false)).1.cursor = some seq
        ∧ (handleFirehoseMessage outcome s (.commit repo rev seq false)).1.failed = s.failed
        ∧ (handleFirehoseMessage outcome s (.commit repo rev seq false)).2 = none) := by
  constructor
  · intro e he
    refine ⟨?_, ?_, ?_⟩ <;> simp [handleFirehoseMessage, he]
  · intro hc
    refine ⟨?_, ?_, ?_⟩ <;> simp [handleFirehoseMessage, hc]

/-- C1 amended witness: a concrete throwing commit leaves the cursor at its
old value. -/
theorem commit_error_capture_and_cursor_witness :
    (handleFirehoseMessage (fun _ => some 7) ⟨some 4, []⟩
        (Message.commit "r" "v" 5 false)).1.cursor = (⟨some 4, []⟩ : FirehoseState).cursor :=
  ((commit_error_capture_and_cursor (fun _ => some 7) ⟨some 4, []⟩ "r" "v" 5).1 7 rfl).2.1

/-- C3: the claim says every failed message is stored together with a retry
counter and that startup re-runs every queue entry.  A non-commit message
whose handler throws is stored as the bare message with no counter, the
replay loop's destructuring then finds no message field on it, and the
replay skips the entry without ever invoking the handler or removing the
entry — under any handler behaviour. -/
theorem failed_non_commit_stored_bare_and_never_replayed :
    handleFirehoseMessage (fun _ => some 3) ⟨none, []⟩ (Message.handle "d" "h" 9)
      = (⟨none, [("d::handle", StoredValue.bare (Message.handle "d" "h" 9))]⟩, some 3)
  ∧ messageField (StoredValue.bare (Message.handle "d" "h" 9)) = none
  ∧ ∀ (outcome : Message → Option Nat),
      replayStep outcome ⟨none, [("d::handle", StoredValue.bare (Message.handle "d" "h" 9))]⟩
        "d::handle"
      = (⟨none, [("d::handle", StoredValue.bare (Message.handle "d" "h" 9))]⟩, false) := by
  refine ⟨by decide, rfl, ?_⟩
  intro outcome
  rfl

/-- C9 counterexample: the claim says the thresholds apply to the measured
events-per-second in every execution regardless of CLI flags.  Without the
verbose flag, 400 messages arriving within one second leave the
eventsPerSecond variable at 0, so the interval applies the baseline
minTime 110 even though the measured rate 400 exceeds the 350 threshold the
claim says forces 750. -/
theorem throttle_inert_without_verbose :
    (throttleTick ((List.range 400).foldl
        (fun st now => onMessageStats false now st) ⟨0, 0, 0⟩).eventsPerSecond).minTime
      = 110
  ∧ 350 ≤ 400 := by
  constructor
  · have h : ∀ (l : List Nat) (st : StatsState),
        l.foldl (fun st now => onMessageStats false now st) st = st := by
      intro l
      induction l with
      | nil => intro st; rfl
      | cons a t ih => intro st; exact ih st
    rw [h]
    decide
  · decide

/-- C9 amended: the 15-second interval sets minTime 750 when the
eventsPerSecond variable is at least 350, 300 when it is at least 280, and
the baseline 110 otherwise — but that variable is updated only under the
verbose CLI flag: without it any sequence of messages leaves the statistics
untouched, while with it a message arriving a full second after the last
rollover publishes the event count. -/
theorem adaptive_throttle_thresholds (eps : Nat) (msgs : List Nat) (s : StatsState) :
    (throttleTick eps).minTime
      = (if 350 ≤ eps then 750 else if 280 ≤ eps then 300 else 110)
  ∧ BOTTLENECK_OPTIONS.minTime = 110
  ∧ msgs.foldl (fun st now => onMessageStats false now st) s = s
  ∧ (onMessageStats true (s.lastSecond + 1000) s).eventsPerSecond
      = s.eventCounter + 1 := by
  refine ⟨?_, rfl, ?_, ?_⟩
  · by_cases h1 : 350 ≤ eps
    · simp [throttleTick, h1]
    · by_cases h2 : 280 ≤ eps <;> simp [throttleTick, BOTTLENECK_OPTIONS, h1, h2]
  · induction msgs generalizing s with
    | nil => rfl
    | cons a t ih => exact ih s
  · simp [onMessageStats]

end Skydex
